import Mathlib

/-!
Verification of the GoGoGadget Firmata client (package `gadget`).

The definitions below are a shallow embedding of the final revision of the
source: the constants and utilities of `gogogadget.go`, the pin module
(`newPin`, `setMode`, `setReporting`), and the board message loop, handlers
and public pin API of the final `Board` revision (the one with the unified
`pins` map, implemented `DigitalWrite`, and the analog-mapping handler).

Modelling conventions:
* Go `byte` values are `Nat`s; byte overflow is written explicitly (`% 256`,
  `&&& 0xFF`) at the spots where Go truncates.
* Go maps (`map[byte]*pin`, `map[byte]byte`) are association lists with
  unique-key insert/update semantics (`alInsert`, `alUpdate`, first match).
* Serial writes are returned explicitly as `List Nat` byte lists from the
  operations whose output matters; channel sends (`ready`,
  `boardDoneReboot`) and timer callbacks are concurrency effects with no
  board-state content and are noted in comments where they occur.
* Fallible operations return an `Option BErr`; each `BErr` constructor
  corresponds to one `fmt.Errorf` site of the source.
-/

/-! ## Constants (gogogadget.go) -/

def digitalMessage : Nat := 0x90

def analogMessage : Nat := 0xE0

def reportDigital : Nat := 0xD0

def reportAnalog : Nat := 0xC0

def setPinMode : Nat := 0xF4

def reportVersion : Nat := 0xF9

def startSysex : Nat := 0xF0

def endSysex : Nat := 0xF7

def capabilityQuery : Nat := 0x6B

def capabilityResponse : Nat := 0x6C

def analogMappingQuery : Nat := 0x69

def analogMappingResponse : Nat := 0x6A

def reportFirmware : Nat := 0x79

def defaultBaud : Nat := 57600

/-- `midiHeaders` from gogogadget.go: the recognized fixed-width headers. -/
def midiHeaders : List Nat := [digitalMessage, analogMessage, reportVersion]

/-! Pin modes and states (pin.go / part_003). -/

def INPUT : Nat := 0

def OUTPUT : Nat := 1

def ANALOG : Nat := 2

def PWM : Nat := 3

def SERVO : Nat := 4

def SHIFT : Nat := 5

def I2C : Nat := 6

def LOW : Nat := 0

def HIGH : Nat := 1

def validPinModes : List Nat := [INPUT, OUTPUT, ANALOG, PWM, SERVO, SHIFT, I2C]

/-! ## Utility functions (gogogadget.go) -/

def boolToByte (b : Bool) : Nat := if b then 1 else 0

/-- `pinToPort(n) = (n >> 3) & 0x0F`. -/
def pinToPort (n : Nat) : Nat := (n >>> 3) &&& 0x0F

def wrapInSysex (msg : List Nat) : List Nat := (startSysex :: msg) ++ [endSysex]

/-! ## List helpers mirroring Go library semantics -/

/-- Does `s` start with `sep`?  (Component of `bytes.Contains`.) -/
def listStartsWith : List Nat → List Nat → Bool
  | _, [] => true
  | [], _ :: _ => false
  | a :: s, b :: t => a = b && listStartsWith s t

/-- Go's `bytes.Contains s sep`: `sep` occurs as a contiguous subslice of `s`. -/
def bytesContains (s sep : List Nat) : Bool :=
  match s with
  | [] => sep.isEmpty
  | _ :: t => listStartsWith s sep || bytesContains t sep

/-- Association-list lookup, first match (Go map read `m[k]`). -/
def alLookup {α : Type} : List (Nat × α) → Nat → Option α
  | [], _ => none
  | (k, v) :: rest, key => if k = key then some v else alLookup rest key

/-- Association-list insert-or-overwrite (Go map write `m[k] = v`). -/
def alInsert {α : Type} : List (Nat × α) → Nat → α → List (Nat × α)
  | [], k, v => [(k, v)]
  | (k', v') :: rest, k, v =>
      if k' = k then (k, v) :: rest else (k', v') :: alInsert rest k v

/-- Update the value stored at a key, if present (Go in-place mutation
through the `*pin` pointer held in the map). -/
def alUpdate {α : Type} : List (Nat × α) → Nat → (α → α) → List (Nat × α)
  | [], _, _ => []
  | (k, v) :: rest, key, f =>
      if k = key then (k, f v) :: rest else (k, v) :: alUpdate rest key f

/-- Set index `i` of a list to `v`.  An out-of-range index leaves the list
unchanged here; the Go slice write would panic, but no code path exercised
by a claim reaches an out-of-range index. -/
def listSet : List Nat → Nat → Nat → List Nat
  | [], _, _ => []
  | _ :: rest, 0, v => v :: rest
  | x :: rest, i + 1, v => x :: listSet rest i v

/-- `bufio.Reader.ReadBytes(delim)` on a finite stream: the bytes up to and
including the delimiter plus the rest, or `none` if the delimiter never
arrives (the Go call would block / return a read error, which aborts the
in-progress frame). -/
def readBytesUntil (delim : Nat) : List Nat → Option (List Nat × List Nat)
  | [] => none
  | b :: rest =>
      if b = delim then some ([b], rest)
      else
        match readBytesUntil delim rest with
        | none => none
        | some (d, r) => some (b :: d, r)

/-- The `for buf.Len() > 0 { d, _ := buf.ReadBytes(0x7F); ... }` loop of
`handleCapabilityResponse`: cut the byte list into chunks, each ending with
the `0x7F` delimiter (a trailing chunk without a delimiter is returned as
read, matching `ReadBytes` at EOF with its error ignored). -/
def splitChunksAux : List Nat → List Nat → List (List Nat)
  | acc, [] => if acc.isEmpty then [] else [acc.reverse]
  | acc, b :: rest =>
      if b = 0x7F then (acc.reverse ++ [b]) :: splitChunksAux [] rest
      else splitChunksAux (b :: acc) rest

/-! ## Pin module (pin.go) -/

/-- `unpackPinModeDataSlice`: keep the mode byte of each `(mode, resolution)`
pair; reject odd-length data. -/
def unpackPinModeDataSlice (data : List Nat) : List Nat :=
  if data.length % 2 ≠ 0 then []
  else evens data
where
  evens : List Nat → List Nat
    | [] => []
    | [x] => [x]
    | x :: _ :: rest => x :: evens rest

/-- Error values, one constructor per `fmt.Errorf` site of the source.
`unknownPin` models both the "Invalid pin: %d" and "Bad pin: %d" messages
(the spec's `UnknownPin`). -/
inductive BErr where
  | unknownPin (pinN : Nat)
  | invalidMode (mode : Nat)
  | unsupportedMode (pinN mode : Nat)
  | alreadyInMode (pinN mode : Nat)
  | notInputOrAnalog (pinN : Nat)
  | notPwm (pinN mode : Nat)
deriving DecidableEq, Repr

/-- The `pin` struct.  `digitalVal` and `analogVal` are the stored
last-known values read and written by the final board revision
(`DigitalWrite`, `AnalogRead`, `handleDigitalMessage`); their Go zero value
is 0 (`LOW`).  The `serial` handle is not part of the state; writes are
returned explicitly by the operations. -/
structure pin where
  num : Nat
  analogNum : Nat
  port : Nat
  mode : Nat
  reporting : Bool
  digitalVal : Nat
  analogVal : Nat
  supportedModes : List Nat
deriving DecidableEq, Repr

/-- `pin.setMode`: validity, support and already-in-mode checks, then the
mode flag update and the `[setPinMode, num, mode]` wire message. -/
def pin.setMode (p : pin) (mode : Nat) : pin × List Nat × Option BErr :=
  if bytesContains validPinModes [mode] = false then
    (p, [], some (BErr.invalidMode mode))
  else if bytesContains p.supportedModes [mode] = false then
    (p, [], some (BErr.unsupportedMode p.num mode))
  else if mode = p.mode then
    (p, [], some (BErr.alreadyInMode p.num mode))
  else
    ({ p with mode := mode }, [setPinMode, p.num, mode], none)

/-- `pin.setReporting`.  Note the Go `switch p.mode` has an EMPTY
`case INPUT:` (Go has no implicit fallthrough), so for a pin in `INPUT`
mode `msg` stays nil and `p.serial.Write(msg)` writes nothing. -/
def pin.setReporting (p : pin) (newState : Bool) : pin × List Nat × Option BErr :=
  if newState && !(p.mode = INPUT || p.mode = ANALOG) then
    (p, [], some (BErr.notInputOrAnalog p.num))
  else
    let p1 := { p with reporting := newState }
    let msg : List Nat :=
      if p1.mode = ANALOG then [reportAnalog ||| p1.analogNum, boolToByte newState]
      else if p1.mode = INPUT then []
      else if p1.mode = OUTPUT then [reportDigital ||| p1.port, boolToByte newState]
      else []
    (p1, msg, none)

/-- `newPin`: struct literal (Go zero values `mode = 0 = INPUT`,
`reporting = false`, values 0) followed by the default-mode selection.
The serial writes issued by the embedded `setMode` / `setReporting` calls
during construction are discarded here (no claim observes them). -/
def newPin (pinNum aPinNum : Nat) (modes : List Nat) : pin :=
  let p : pin :=
    { num := pinNum, analogNum := aPinNum, port := pinToPort pinNum,
      mode := INPUT, reporting := false, digitalVal := 0, analogVal := 0,
      supportedModes := modes }
  if bytesContains p.supportedModes [ANALOG] then
    ((p.setMode ANALOG).1.setReporting false).1
  else
    (p.setMode OUTPUT).1

/-! ## Messages and the frame reader (board.go, final revision) -/

inductive msgType where
  | midiMsg
  | sysexMsg
deriving DecidableEq, Repr

structure message where
  t : msgType
  data : List Nat
deriving DecidableEq, Repr

/-- One iteration of the final revision's `run` loop on a byte stream:
a `startSysex` header collects bytes through `endSysex`; EVERY other header
byte is treated as a fixed-width MIDI header and two further data bytes are
consumed.  `none` models insufficient input (a blocking read / read error,
which aborts the in-progress frame). -/
def runStep (stream : List Nat) : Option (message × List Nat) :=
  match stream with
  | [] => none
  | header :: rest =>
      if header = startSysex then
        match readBytesUntil endSysex rest with
        | none => none
        | some (d, r) => some ({ t := msgType.sysexMsg, data := header :: d }, r)
      else
        match rest with
        | lsb :: msb :: r => some ({ t := msgType.midiMsg, data := [header, lsb, msb] }, r)
        | _ => none

/-! ## Board state (final revision) -/

/-- The `Board` struct, stripped of the I/O handles (`cfg`, `fd`, `buf`,
`serial`), the handler map (embedded as `handleCallback`'s dispatch), and
the `ready` / `boardDoneReboot` channels (pure synchronization). -/
structure Board where
  maj : Nat
  min : Nat
  firmware : String
  pinsInitialized : Bool
  pins : List (Nat × pin)
  analogMapping : List (Nat × Nat)
  analogToNormal : List Nat
deriving DecidableEq, Repr

def freshBoard : Board :=
  { maj := 0, min := 0, firmware := "", pinsInitialized := false,
    pins := [], analogMapping := [], analogToNormal := [] }

/-- `fmt.Sprintf("%d.%d", b.maj, b.min)`. -/
def Board.Version (b : Board) : String :=
  Nat.repr b.maj ++ "." ++ Nat.repr b.min

/-- `fmt.Sprintf("%s %s", b.firmware, b.Version())`. -/
def Board.Firmware (b : Board) : String :=
  b.firmware ++ " " ++ b.Version

/-- Go `string(bytes)` on ASCII data. -/
def bytesToString (l : List Nat) : String :=
  String.mk (l.map Char.ofNat)

/-! ## Message handlers (board.go, final revision) -/

def handleReportVersion (b : Board) (m : message) : Board :=
  { b with maj := m.data.getD 1 0, min := m.data.getD 2 0 }

/-- `handleReportFirmware` of the final revision records ONLY the name
bytes `m.data[4 : len-1]`; the major/minor bytes at `m.data[2]`/`m.data[3]`
are not stored.  The `boardDoneReboot` channel send (when
`!pinsInitialized`) is a synchronization effect with no state content. -/
def handleReportFirmware (b : Board) (m : message) : Board :=
  { b with firmware := bytesToString ((m.data.drop 4).dropLast) }

/-- `handleAnalogMessage` only logs; no state change. -/
def handleAnalogMessage (b : Board) (_m : message) : Board := b

/-- `handleDigitalMessage`: update `digitalVal` of every pin on the
message's port that is in `INPUT` mode.  `portVal` is byte arithmetic:
`m.data[1] | m.data[2]<<7` truncated to 8 bits. -/
def handleDigitalMessage (b : Board) (m : message) : Board :=
  let portNum := (m.data.getD 0 0) &&& 0x0F
  let portVal := (m.data.getD 1 0) ||| (((m.data.getD 2 0) <<< 7) % 256)
  { b with
    pins := b.pins.map (fun kv =>
      if kv.2.port = portNum ∧ kv.2.mode = INPUT then
        (kv.1, { kv.2 with
                 digitalVal := (portVal >>> ((kv.2.num % 8) &&& 0x07)) &&& 0x01 })
      else kv) }

/-- `initPins`: no-op once `pinsInitialized`; no-op (except for re-sending
the analog-mapping query and scheduling a capability-query retry, pure
serial/timer effects) while `analogMapping` is still empty; otherwise build
the pin table and mark the board initialized.  The `ready <- true` channel
send is a synchronization effect. -/
def initPins (b : Board) (analog digital : List (Nat × List Nat)) : Board :=
  if b.pinsInitialized then b
  else if b.analogMapping.length = 0 then b
  else
    let b0 := { b with analogToNormal := List.replicate b.analogMapping.length 0 }
    let b1 := analog.foldl (fun bb e =>
      match alLookup bb.analogMapping e.1 with
      | some analogNum =>
          { bb with
            pins := alInsert bb.pins e.1 (newPin e.1 analogNum e.2),
            analogToNormal := listSet bb.analogToNormal analogNum e.1 }
      | none => bb) b0
    let b2 := digital.foldl (fun bb e =>
      { bb with pins := alInsert bb.pins e.1 (newPin e.1 0x7F e.2) }) b1
    { b2 with pinsInitialized := true }

/-- `handleCapabilityResponse`: split `m.data[2 : len-1]` into per-pin
records, unpack the mode bytes of each, classify records containing
`ANALOG` as analog pins and records containing the consecutive pair
`INPUT, OUTPUT` as digital pins (Go `switch` with `bytes.Contains` cases,
first match wins), and hand both maps to `initPins`. -/
def handleCapabilityResponse (b : Board) (m : message) : Board :=
  let chunks := splitChunksAux [] ((m.data.drop 2).dropLast)
  let analog := chunks.enum.filterMap (fun e =>
    let info := unpackPinModeDataSlice e.2.dropLast
    if bytesContains info [ANALOG] then some (e.1, info) else none)
  let digital := chunks.enum.filterMap (fun e =>
    let info := unpackPinModeDataSlice e.2.dropLast
    if bytesContains info [ANALOG] then none
    else if bytesContains info [INPUT, OUTPUT] then some (e.1, info) else none)
  initPins b analog digital

/-- `handleAnalogMappingResponse` of the final revision stores EVERY entry
of `m.data[2 : len-1]` (including the `0x7F` sentinel values — this
revision dropped the `num != 0x7F` filter of the earlier one), with the
pin-67 hack overriding the stored value with 13. -/
def handleAnalogMappingResponse (b : Board) (m : message) : Board :=
  { b with
    analogMapping := ((m.data.drop 2).dropLast).enum.foldl (fun am e =>
      let am1 := alInsert am e.1 e.2
      if e.1 = 67 then alInsert am1 67 13 else am1) b.analogMapping }

/-- `handleCallback`: derive the command byte (low nibble masked off for
fixed-width headers below `0xF0`; second payload byte for Sysex) and invoke
the registered handler; a miss is a no-op.  The `cbMap` registered by
`init` of the final revision holds exactly the six handlers below. -/
def handleCallback (b : Board) (msg : message) : Board :=
  let cmd :=
    match msg.t with
    | msgType.midiMsg =>
        if msg.data.getD 0 0 < 0xF0 then (msg.data.getD 0 0) &&& 0xF0
        else msg.data.getD 0 0
    | msgType.sysexMsg => msg.data.getD 1 0
  if cmd = reportVersion then handleReportVersion b msg
  else if cmd = reportFirmware then handleReportFirmware b msg
  else if cmd = capabilityResponse then handleCapabilityResponse b msg
  else if cmd = analogMappingResponse then handleAnalogMappingResponse b msg
  else if cmd = analogMessage then handleAnalogMessage b msg
  else if cmd = digitalMessage then handleDigitalMessage b msg
  else b

/-! ## Public pin API (board.go, final revision) -/

def DigitalRead (b : Board) (pinN : Nat) : Nat × Option BErr :=
  match alLookup b.pins pinN with
  | none => (0, some (BErr.unknownPin pinN))
  | some p => (p.digitalVal, none)

/-- The port-bitmask loop of `DigitalWrite`: for `i = 0..7` look up pin
`8*port + i`; a missing pin aborts with that pin number; otherwise bit `i`
is set when the stored value is not `LOW`. -/
def dwLoop (pins : List (Nat × pin)) (port : Nat) : List Nat → Nat → Except Nat Nat
  | [], acc => Except.ok acc
  | i :: is, acc =>
      match alLookup pins (8 * port + i) with
      | none => Except.error (8 * port + i)
      | some p =>
          dwLoop pins port is (if p.digitalVal ≠ LOW then acc ||| (1 <<< i) else acc)

/-- `DigitalWrite`: first update the target pin's stored value (when the
pin is present), then recompute the 8-pin port bitmask — aborting with an
unknown-pin error if any sibling is missing — and emit the three-byte
port-write frame. -/
def DigitalWrite (b : Board) (pinN s : Nat) : Board × List Nat × Option BErr :=
  let port := pinToPort pinN
  let b1 := { b with pins := alUpdate b.pins pinN (fun p => { p with digitalVal := s }) }
  match dwLoop b1.pins port (List.range 8) 0 with
  | Except.error n => (b1, [], some (BErr.unknownPin n))
  | Except.ok portVal =>
      (b1, [digitalMessage ||| port, portVal &&& 0x7F, (portVal >>> 7) &&& 0x7F], none)

def AnalogRead (b : Board) (pinN : Nat) : Nat × Option BErr :=
  match alLookup b.pins pinN with
  | none => (0, some (BErr.unknownPin pinN))
  | some p => (p.analogVal, none)

/-- `AnalogWrite` in the source opens with `log.Fatal` (process exit), so
everything after it is dead code in Go; the dead body is embedded as
written. -/
def AnalogWrite (b : Board) (pinN val : Nat) : Board × Option BErr :=
  match alLookup b.pins pinN with
  | none => (b, some (BErr.unknownPin pinN))
  | some p =>
      if p.mode = PWM then
        ({ b with pins := alUpdate b.pins pinN (fun q => { q with analogVal := val }) }, none)
      else (b, some (BErr.notPwm pinN p.mode))

def SetPinMode (b : Board) (pinN mode : Nat) : Board × List Nat × Option BErr :=
  match alLookup b.pins pinN with
  | none => (b, [], some (BErr.unknownPin pinN))
  | some p =>
      let r := p.setMode mode
      ({ b with pins := alUpdate b.pins pinN (fun _ => r.1) }, r.2.1, r.2.2)

def SetPinReporting (b : Board) (pinN : Nat) (report : Bool) : Board × List Nat × Option BErr :=
  match alLookup b.pins pinN with
  | none => (b, [], some (BErr.unknownPin pinN))
  | some p =>
      let r := p.setReporting report
      ({ b with pins := alUpdate b.pins pinN (fun _ => r.1) }, r.2.1, r.2.2)

/-! ## Invariants and helper lemmas -/

/-- The §3 invariant for a single pin: its current mode is an element of
its supported-modes set. -/
def pinInv (p : pin) : Prop := p.mode ∈ p.supportedModes

instance (p : pin) : Decidable (pinInv p) := by
  unfold pinInv; infer_instance

/-- Every pin of the board's pin table satisfies `pinInv`. -/
def boardInv (b : Board) : Prop := ∀ e ∈ b.pins, pinInv e.2

instance (b : Board) : Decidable (boardInv b) := by
  unfold boardInv; exact List.decidableBAll _ _

theorem alLookup_alUpdate {α : Type} (l : List (Nat × α)) (k : Nat) (f : α → α) (x : Nat) :
    alLookup (alUpdate l k f) x =
      if x = k then (alLookup l k).map f else alLookup l x := by
  induction l with
  | nil => by_cases hx : x = k <;> simp [alLookup, alUpdate, hx]
  | cons hd tl ih =>
      obtain ⟨k', v⟩ := hd
      by_cases hk : k' = k
      · subst hk
        by_cases hx : x = k'
        · simp [alLookup, alUpdate, hx]
        · have hx' : ¬ k' = x := fun h => hx h.symm
          simp [alLookup, alUpdate, hx, hx']
      · by_cases hx : k' = x
        · subst hx
          simp [alLookup, alUpdate, hk]
        · simp [alLookup, alUpdate, hk, hx, ih]

theorem alUpdate_const_self {α : Type} {l : List (Nat × α)} {k : Nat} {v : α}
    (h : alLookup l k = some v) : alUpdate l k (fun _ => v) = l := by
  induction l with
  | nil => rfl
  | cons hd tl ih =>
      obtain ⟨k', v'⟩ := hd
      by_cases hk : k' = k
      · subst hk
        simp [alLookup] at h
        simp [alUpdate, h]
      · simp [alLookup, hk] at h
        simp [alUpdate, hk, ih h]

theorem alLookup_mem {α : Type} {l : List (Nat × α)} {k : Nat} {v : α}
    (h : alLookup l k = some v) : (k, v) ∈ l := by
  induction l with
  | nil => simp [alLookup] at h
  | cons hd tl ih =>
      obtain ⟨k', v'⟩ := hd
      by_cases hk : k' = k
      · subst hk
        simp [alLookup] at h
        subst h
        exact List.mem_cons_self _ _
      · simp [alLookup, hk] at h
        exact List.mem_cons_of_mem _ (ih h)

theorem alInsert_mem {α : Type} {l : List (Nat × α)} {k : Nat} {v : α} {e : Nat × α}
    (he : e ∈ alInsert l k v) : e = (k, v) ∨ e ∈ l := by
  induction l with
  | nil =>
      simp [alInsert] at he
      exact Or.inl he
  | cons hd tl ih =>
      obtain ⟨k', v'⟩ := hd
      by_cases hk : k' = k
      · subst hk
        simp [alInsert] at he
        rcases he with rfl | h
        · exact Or.inl rfl
        · exact Or.inr (List.mem_cons_of_mem _ h)
      · simp [alInsert, hk] at he
        rcases he with rfl | h
        · exact Or.inr (List.mem_cons_self _ _)
        · rcases ih h with h' | h'
          · exact Or.inl h'
          · exact Or.inr (List.mem_cons_of_mem _ h')

theorem alUpdate_mem {α : Type} {l : List (Nat × α)} {k : Nat} {f : α → α} {e : Nat × α}
    (he : e ∈ alUpdate l k f) : (∃ v, (e.1, v) ∈ l ∧ e.2 = f v) ∨ e ∈ l := by
  induction l with
  | nil =>
      simp [alUpdate] at he
  | cons hd tl ih =>
      obtain ⟨k', v'⟩ := hd
      by_cases hk : k' = k
      · subst hk
        simp [alUpdate] at he
        rcases he with rfl | h
        · exact Or.inl ⟨v', List.mem_cons_self _ _, rfl⟩
        · exact Or.inr (List.mem_cons_of_mem _ h)
      · simp [alUpdate, hk] at he
        rcases he with rfl | h
        · exact Or.inr (List.mem_cons_self _ _)
        · rcases ih h with ⟨v, hv, hev⟩ | h'
          · exact Or.inl ⟨v, List.mem_cons_of_mem _ hv, hev⟩
          · exact Or.inr (List.mem_cons_of_mem _ h')

theorem startsWith_mem {sep : List Nat} : ∀ {s : List Nat},
    listStartsWith s sep = true → ∀ x ∈ sep, x ∈ s := by
  induction sep with
  | nil => intro s _ x hx; simp at hx
  | cons b t ih =>
      intro s h x hx
      cases s with
      | nil => simp [listStartsWith] at h
      | cons a s' =>
          simp [listStartsWith] at h
          obtain ⟨h1, h2⟩ := h
          rcases List.mem_cons.mp hx with rfl | hx'
          · subst h1; exact List.mem_cons_self _ _
          · exact List.mem_cons_of_mem _ (ih h2 x hx')

theorem bytesContains_mem {s sep : List Nat}
    (h : bytesContains s sep = true) : ∀ x ∈ sep, x ∈ s := by
  induction s with
  | nil =>
      cases sep with
      | nil => intro x hx; simp at hx
      | cons b t => simp [bytesContains] at h
  | cons a t ih =>
      simp only [bytesContains, Bool.or_eq_true] at h
      rcases h with h | h
      · exact startsWith_mem h
      · intro x hx
        exact List.mem_cons_of_mem _ (ih h x hx)

theorem bytesContains_singleton {s : List Nat} {a : Nat} :
    bytesContains s [a] = true ↔ a ∈ s := by
  constructor
  · intro h
    exact bytesContains_mem h a (List.mem_cons_self _ _)
  · intro h
    induction s with
    | nil => simp at h
    | cons x t ih =>
        rcases List.mem_cons.mp h with rfl | h'
        · simp [bytesContains, listStartsWith]
        · simp [bytesContains, ih h']

theorem dwLoop_err {pins : List (Nat × pin)} {port : Nat} :
    ∀ (is : List Nat) (acc : Nat),
      (∃ i ∈ is, alLookup pins (8 * port + i) = none) →
      ∃ n, dwLoop pins port is acc = Except.error n := by
  intro is
  induction is with
  | nil => intro acc h; simp at h
  | cons j js ih =>
      intro acc h
      cases hj : alLookup pins (8 * port + j) with
      | none => exact ⟨8 * port + j, by simp [dwLoop, hj]⟩
      | some p =>
          rcases h with ⟨i, hi, hnone⟩
          rcases List.mem_cons.mp hi with rfl | hmem
          · rw [hj] at hnone; cases hnone
          · rcases ih (if p.digitalVal ≠ LOW then acc ||| 1 <<< j else acc)
              ⟨i, hmem, hnone⟩ with ⟨n, hn⟩
            refine ⟨n, ?_⟩
            simp only [dwLoop, hj]
            simpa using hn

theorem foldl_pres {α β : Type} (P : β → Prop) (f : β → α → β) :
    ∀ (l : List α) (b0 : β),
      (∀ a ∈ l, ∀ bb, P bb → P (f bb a)) → P b0 → P (l.foldl f b0) := by
  intro l
  induction l with
  | nil => intro b0 _ h0; exact h0
  | cons hd tl ih =>
      intro b0 h h0
      exact ih (f b0 hd) (fun a ha bb hb => h a (List.mem_cons_of_mem _ ha) bb hb)
        (h hd (List.mem_cons_self _ _) b0 h0)


/-! ## Mode-invariant preservation lemmas -/

theorem setMode_ok (p : pin) (m : Nat)
    (hv : bytesContains validPinModes [m] = true)
    (hs : bytesContains p.supportedModes [m] = true)
    (hne : m ≠ p.mode) :
    p.setMode m = ({ p with mode := m }, [setPinMode, p.num, m], none) := by
  unfold pin.setMode
  rw [hv, hs]
  simp [hne]

theorem setMode_inv (p : pin) (m : Nat) (h : pinInv p) : pinInv (p.setMode m).1 := by
  unfold pin.setMode
  split
  · exact h
  · split
    · exact h
    · split
      · exact h
      · rename_i h1 h2 h3
        have hs : bytesContains p.supportedModes [m] = true := by
          revert h2
          cases bytesContains p.supportedModes [m] <;> simp
        have hmem : m ∈ p.supportedModes := bytesContains_singleton.mp hs
        simpa [pinInv] using hmem

theorem setReporting_fields (p : pin) (s : Bool) :
    (p.setReporting s).1.mode = p.mode ∧
    (p.setReporting s).1.supportedModes = p.supportedModes := by
  unfold pin.setReporting
  split <;> simp

theorem setReporting_inv (p : pin) (s : Bool) (h : pinInv p) :
    pinInv (p.setReporting s).1 := by
  have hf := setReporting_fields p s
  unfold pinInv
  rw [hf.1, hf.2]
  exact h

theorem newPin_inv (pinNum aPinNum : Nat) (modes : List Nat)
    (h : bytesContains modes [ANALOG] = true ∨ OUTPUT ∈ modes) :
    pinInv (newPin pinNum aPinNum modes) := by
  unfold newPin
  by_cases hc : bytesContains modes [ANALOG] = true
  · simp only [hc, if_true]
    apply setReporting_inv
    rw [setMode_ok _ ANALOG (by decide) hc (show ANALOG ≠ INPUT from by decide)]
    exact bytesContains_singleton.mp hc
  · have hout : OUTPUT ∈ modes := h.resolve_left hc
    have hc' : bytesContains modes [OUTPUT] = true := bytesContains_singleton.mpr hout
    simp only [hc, Bool.false_eq_true, if_false]
    rw [setMode_ok _ OUTPUT (by decide) hc' (show OUTPUT ≠ INPUT from by decide)]
    exact hout

theorem listInv_alInsert {l : List (Nat × pin)} {k : Nat} {p : pin}
    (h : ∀ e ∈ l, pinInv e.2) (hp : pinInv p) :
    ∀ e ∈ alInsert l k p, pinInv e.2 := by
  intro e he
  rcases alInsert_mem he with rfl | h'
  · exact hp
  · exact h e h'

theorem listInv_alUpdate {l : List (Nat × pin)} {k : Nat} {f : pin → pin}
    (h : ∀ e ∈ l, pinInv e.2) (hf : ∀ q, pinInv q → pinInv (f q)) :
    ∀ e ∈ alUpdate l k f, pinInv e.2 := by
  intro e he
  rcases alUpdate_mem he with ⟨v, hv, hev⟩ | h'
  · rw [hev]; exact hf v (h _ hv)
  · exact h e h'

theorem boardInv_markInit {bb : Board} (h : boardInv bb) :
    boardInv { bb with pinsInitialized := true } :=
  fun e he => h e he

theorem initPins_inv (b : Board) (analog digital : List (Nat × List Nat))
    (hb : boardInv b)
    (ha : ∀ e ∈ analog, bytesContains e.2 [ANALOG] = true)
    (hd : ∀ e ∈ digital, OUTPUT ∈ e.2) :
    boardInv (initPins b analog digital) := by
  unfold initPins
  split
  · exact hb
  · split
    · exact hb
    · apply boardInv_markInit
      refine foldl_pres boardInv _ digital _ ?_ ?_
      · intro a hamem bb hbb e he
        exact listInv_alInsert hbb (newPin_inv a.1 0x7F a.2 (Or.inr (hd a hamem))) e he
      · refine foldl_pres boardInv _ analog _ ?_ ?_
        · intro a hamem bb hbb
          cases halk : alLookup bb.analogMapping a.1 with
          | none => simpa [halk] using hbb
          | some analogNum =>
              simp only [halk]
              intro e he
              exact listInv_alInsert hbb
                (newPin_inv a.1 analogNum a.2 (Or.inl (ha a hamem))) e he
        · intro e he
          exact hb e he

theorem handleCapabilityResponse_inv (b : Board) (m : message) (hb : boardInv b) :
    boardInv (handleCapabilityResponse b m) := by
  unfold handleCapabilityResponse
  apply initPins_inv _ _ _ hb
  · intro e he
    obtain ⟨e1, e2⟩ := e
    rcases List.mem_filterMap.mp he with ⟨a, _, hfa⟩
    by_cases hc : bytesContains (unpackPinModeDataSlice a.2.dropLast) [ANALOG] = true
    · simp only [hc, if_true, Option.some.injEq, Prod.mk.injEq] at hfa
      rw [← hfa.2]
      exact hc
    · simp [hc] at hfa
  · intro e he
    obtain ⟨e1, e2⟩ := e
    rcases List.mem_filterMap.mp he with ⟨a, _, hfa⟩
    by_cases hc : bytesContains (unpackPinModeDataSlice a.2.dropLast) [ANALOG] = true
    · simp [hc] at hfa
    · by_cases hio : bytesContains (unpackPinModeDataSlice a.2.dropLast) [INPUT, OUTPUT] = true
      · simp only [hc, Bool.false_eq_true, if_false, hio, if_true,
          Option.some.injEq, Prod.mk.injEq] at hfa
        rw [← hfa.2]
        exact bytesContains_mem hio OUTPUT (by simp)
      · simp [hc, hio] at hfa

theorem handleDigitalMessage_inv (b : Board) (m : message) (hb : boardInv b) :
    boardInv (handleDigitalMessage b m) := by
  unfold handleDigitalMessage
  intro e he
  simp only [List.mem_map] at he
  rcases he with ⟨a, ha, hae⟩
  subst hae
  split
  · simpa [pinInv] using hb a ha
  · exact hb a ha

theorem SetPinMode_inv (b : Board) (pinN mode : Nat) (hb : boardInv b) :
    boardInv (SetPinMode b pinN mode).1 := by
  unfold SetPinMode
  cases hlk : alLookup b.pins pinN with
  | none => exact fun e he => hb e he
  | some p =>
      intro e he
      refine listInv_alUpdate hb (fun q _ => ?_) e he
      exact setMode_inv p mode (hb _ (alLookup_mem hlk))

theorem SetPinReporting_inv (b : Board) (pinN : Nat) (r : Bool) (hb : boardInv b) :
    boardInv (SetPinReporting b pinN r).1 := by
  unfold SetPinReporting
  cases hlk : alLookup b.pins pinN with
  | none => exact fun e he => hb e he
  | some p =>
      intro e he
      refine listInv_alUpdate hb (fun q _ => ?_) e he
      exact setReporting_inv p r (hb _ (alLookup_mem hlk))

theorem DigitalWrite_inv (b : Board) (pinN s : Nat) (hb : boardInv b) :
    boardInv (DigitalWrite b pinN s).1 := by
  have hpins : boardInv
      { b with pins := alUpdate b.pins pinN (fun p => { p with digitalVal := s }) } := by
    intro e he
    refine listInv_alUpdate hb (fun q hq => ?_) e he
    simpa [pinInv] using hq
  simp only [DigitalWrite]
  split
  · exact hpins
  · exact hpins

theorem AnalogWrite_inv (b : Board) (pinN v : Nat) (hb : boardInv b) :
    boardInv (AnalogWrite b pinN v).1 := by
  cases hlk : alLookup b.pins pinN with
  | none =>
      simp only [AnalogWrite, hlk]
      exact fun e he => hb e he
  | some p =>
      simp only [AnalogWrite, hlk]
      split
      · intro e he
        refine listInv_alUpdate hb (fun q hq => ?_) e he
        simpa [pinInv] using hq
      · exact fun e he => hb e he

theorem dispatch_inv (b : Board) (m : message) (hb : boardInv b) (cmd : Nat) :
    boardInv
      (if cmd = reportVersion then handleReportVersion b m
       else if cmd = reportFirmware then handleReportFirmware b m
       else if cmd = capabilityResponse then handleCapabilityResponse b m
       else if cmd = analogMappingResponse then handleAnalogMappingResponse b m
       else if cmd = analogMessage then handleAnalogMessage b m
       else if cmd = digitalMessage then handleDigitalMessage b m
       else b) := by
  split
  · exact fun e he => hb e he
  · split
    · exact fun e he => hb e he
    · split
      · exact handleCapabilityResponse_inv b m hb
      · split
        · exact fun e he => hb e he
        · split
          · exact fun e he => hb e he
          · split
            · exact handleDigitalMessage_inv b m hb
            · exact hb

theorem handleCallback_inv (b : Board) (m : message) (hb : boardInv b) :
    boardInv (handleCallback b m) := by
  unfold handleCallback
  exact dispatch_inv b m hb _

/-! ## Concrete boards and messages for instantiations -/

/-- A digital pin (supported modes Input and Output, default mode Output,
as `newPin` produces for a digital capability record) with stored digital
value `d`. -/
def exPin (i d : Nat) : pin :=
  { num := i, analogNum := 0x7F, port := pinToPort i, mode := OUTPUT,
    reporting := false, digitalVal := d, analogVal := 0,
    supportedModes := [INPUT, OUTPUT] }

/-- A board whose table holds pins 0 through 7; pin 7's last known value is
High, all others Low. -/
def bAll8 : Board :=
  { freshBoard with pins := (List.range 8).map (fun i => (i, exPin i (if i = 7 then 1 else 0))) }

/-- A board holding only pin 3 of port 0 (siblings missing). -/
def bOnly3 : Board := { freshBoard with pins := [(3, exPin 3 0)] }

/-- A board holding a single digital pin 2 in Output mode. -/
def bPin2 : Board := { freshBoard with pins := [(2, exPin 2 0)] }

/-- Pin 2 switched to Input mode. -/
def pinInput2 : pin := { exPin 2 0 with mode := INPUT }

/-- A board holding a single digital pin 2 in Input mode. -/
def bInput2 : Board := { freshBoard with pins := [(2, pinInput2)] }

/-- `bPin2` after the handshake has completed (`pinsInitialized`). -/
def bReady2 : Board := { bPin2 with pinsInitialized := true }

/-- The firmware report of end-to-end scenario A:
`[0xF0, 0x79, 2, 5, 'S','t','d','F','i','r','m','a','t','a', 0xF7]`. -/
def firmwareMsgA : message :=
  { t := msgType.sysexMsg,
    data := [0xF0, 0x79, 2, 5, 83, 116, 100, 70, 105, 114, 109, 97, 116, 97, 0xF7] }

/-- A capability response declaring pin 0 digital (Input res 1, Output res 1)
and pin 1 analog (Analog res 10). -/
def capMsgEx : message :=
  { t := msgType.sysexMsg,
    data := [0xF0, 0x6C, 0, 1, 1, 1, 0x7F, 2, 10, 0x7F, 0xF7] }

/-- An analog-mapping response: pin 0 digital-only, pin 1 is A0. -/
def mapMsgEx : message :=
  { t := msgType.sysexMsg, data := [0xF0, 0x6A, 0x7F, 0, 0xF7] }

/-! ## Claims -/

/-- C6: every pin in the pin table has its current mode in its supported
set: pins created by the capability-response handler (via `initPins` and
`newPin`) satisfy the invariant, and every incoming-message handler, the
dispatcher, and every mutating public pin operation preserves it.
`DigitalRead` and `AnalogRead` are pure in this embedding (they return a
value and an error and no board), so they cannot violate it. -/
theorem C6_theorem (b : Board) (hb : boardInv b) :
    (∀ m, boardInv (handleCapabilityResponse b m)) ∧
    (∀ m, boardInv (handleAnalogMappingResponse b m)) ∧
    (∀ m, boardInv (handleDigitalMessage b m)) ∧
    (∀ m, boardInv (handleAnalogMessage b m)) ∧
    (∀ m, boardInv (handleReportVersion b m)) ∧
    (∀ m, boardInv (handleReportFirmware b m)) ∧
    (∀ m, boardInv (handleCallback b m)) ∧
    (∀ pinN mode, boardInv (SetPinMode b pinN mode).1) ∧
    (∀ pinN r, boardInv (SetPinReporting b pinN r).1) ∧
    (∀ pinN s, boardInv (DigitalWrite b pinN s).1) ∧
    (∀ pinN v, boardInv (AnalogWrite b pinN v).1) :=
  ⟨fun m => handleCapabilityResponse_inv b m hb,
   fun _ e he => hb e he,
   fun m => handleDigitalMessage_inv b m hb,
   fun _ e he => hb e he,
   fun _ e he => hb e he,
   fun _ e he => hb e he,
   fun m => handleCallback_inv b m hb,
   fun pinN mode => SetPinMode_inv b pinN mode hb,
   fun pinN r => SetPinReporting_inv b pinN r hb,
   fun pinN s => DigitalWrite_inv b pinN s hb,
   fun pinN v => AnalogWrite_inv b pinN v hb⟩

/-- C6 witness: a concrete board satisfying the invariant, with the
theorem applied to the scenario-B capability response (which builds pins)
and to a concrete mode change. -/
theorem C6_witness :
    boardInv bPin2 ∧
    boardInv (handleCapabilityResponse bPin2 capMsgEx) ∧
    boardInv (SetPinMode bPin2 2 INPUT).1 :=
  ⟨by decide,
   (C6_theorem bPin2 (by decide)).1 capMsgEx,
   (C6_theorem bPin2 (by decide)).2.2.2.2.2.2.2.1 2 INPUT⟩

/-- C1 counterexample: the byte `0x01` is neither the Sysex start marker
nor a recognized fixed-width header, yet the frame reader consumes it AND
the two following bytes `0xF9, 0x02` as one fixed-width frame, resuming at
the fourth byte instead of the second: the claim's "discards that single
byte and resumes reading at the next byte" is false on this stream. -/
theorem C1_counterexample :
    (1 : Nat) ∉ midiHeaders ∧ (1 : Nat) ≠ startSysex ∧
    runStep [1, 249, 2, 3] =
      some ({ t := msgType.midiMsg, data := [1, 249, 2] }, [3]) ∧
    ([3] : List Nat) ≠ [249, 2, 3] := by decide

/-- C1 amended: every header byte other than the Sysex start marker —
recognized or not — is treated as a fixed-width header: the reader consumes
it plus exactly two data bytes and emits the 3-byte frame; a frame whose
derived command has no registered handler is then dropped at dispatch with
no state change. -/
theorem C1_theorem (b : Board) (h a c : Nat) (s : List Nat)
    (hns : h ≠ startSysex) :
    runStep (h :: a :: c :: s) =
      some ({ t := msgType.midiMsg, data := [h, a, c] }, s) ∧
    (h < 0xF0 →
      (h &&& 0xF0) ∉ [reportVersion, reportFirmware, capabilityResponse,
        analogMappingResponse, analogMessage, digitalMessage] →
      handleCallback b { t := msgType.midiMsg, data := [h, a, c] } = b) := by
  constructor
  · simp [runStep, hns]
  · intro hlt hnot
    simp only [List.mem_cons, List.not_mem_nil, or_false, not_or] at hnot
    obtain ⟨n1, n2, n3, n4, n5, n6⟩ := hnot
    simp [handleCallback, hlt, n1, n2, n3, n4, n5, n6]

/-- C1 witness for the amended theorem at the unrecognized header 0x01. -/
theorem C1_witness :
    (1 : Nat) ≠ startSysex ∧
    runStep [1, 2, 3] = some ({ t := msgType.midiMsg, data := [1, 2, 3] }, []) ∧
    handleCallback freshBoard { t := msgType.midiMsg, data := [1, 2, 3] } = freshBoard :=
  ⟨by decide,
   (C1_theorem freshBoard 1 2 3 [] (by decide)).1,
   (C1_theorem freshBoard 1 2 3 [] (by decide)).2 (by decide) (by decide)⟩

/-- C2 counterexample: after dispatching the scenario-A firmware report to
a fresh board, the version accessor reports "0.0", not "2.5": the final
firmware-report handler does not record the major/minor bytes. -/
theorem C2_counterexample :
    (handleCallback freshBoard firmwareMsgA).Version = "0.0" ∧
    ("0.0" : String) ≠ "2.5" := by decide

/-- C2 amended: dispatching the scenario-A firmware report records the
firmware name "StdFirmata" and leaves the version bytes untouched (the
handler stores only `data[4 : len-1]`); on a fresh board the firmware
accessor therefore reports "StdFirmata 0.0" and the version accessor
"0.0" — the "2.5" carried by the message is only recorded by the separate
report-version (0xF9) handler. -/
theorem C2_theorem :
    (∀ b : Board,
      (handleCallback b firmwareMsgA).firmware = "StdFirmata" ∧
      (handleCallback b firmwareMsgA).maj = b.maj ∧
      (handleCallback b firmwareMsgA).min = b.min) ∧
    (handleCallback freshBoard firmwareMsgA).Firmware = "StdFirmata 0.0" ∧
    (handleCallback freshBoard firmwareMsgA).Version = "0.0" := by
  refine ⟨fun b => ?_, by decide, by decide⟩
  have hname : bytesToString ((firmwareMsgA.data.drop 4).dropLast) = "StdFirmata" := by
    decide
  have hcb : handleCallback b firmwareMsgA = handleReportFirmware b firmwareMsgA := by
    simp [handleCallback, firmwareMsgA, reportVersion, reportFirmware]
  rw [hcb]
  unfold handleReportFirmware
  rw [hname]
  exact ⟨rfl, rfl, rfl⟩

/-- Spec-side description of the port value claim C3 talks about, for
`digital_write(3, High)` on a fully populated port 0: bit 3 is 1 and every
other bit is the corresponding sibling pin's last known digital value. -/
def expectedMaskC3 (ps : Nat → pin) : Nat :=
  (if (ps 0).digitalVal ≠ LOW then 1 else 0) +
  (if (ps 1).digitalVal ≠ LOW then 2 else 0) +
  (if (ps 2).digitalVal ≠ LOW then 4 else 0) + 8 +
  (if (ps 4).digitalVal ≠ LOW then 16 else 0) +
  (if (ps 5).digitalVal ≠ LOW then 32 else 0) +
  (if (ps 6).digitalVal ≠ LOW then 64 else 0) +
  (if (ps 7).digitalVal ≠ LOW then 128 else 0)

/-- C3 counterexample: with pins 0–7 present and pin 7's last known value
High, `DigitalWrite 3 High` sends `[0x90, 0x08, 0x01]` — the third byte is
1, not 0, so the frame is not of the claimed shape `[0x90, mask, 0]`. -/
theorem C3_counterexample :
    (DigitalWrite bAll8 3 1).2.1 = [0x90, 8, 1] ∧
    ((DigitalWrite bAll8 3 1).2.1).getD 2 0 ≠ 0 := by decide

/-- C3 amended: `DigitalWrite 3 High` on a board with pins 0–7 present
succeeds and writes exactly one three-byte frame
`[0x90 | 0, v & 0x7F, (v >> 7) & 0x7F]` where bit 3 of `v` is 1 and every
other bit of `v` is the sibling's last known value; the third byte carries
bit 7 of the port (it is 0 exactly when pin 7's last known value is Low),
rather than being the constant 0 of the claim. -/
theorem C3_theorem (b : Board) (ps : Nat → pin)
    (h : ∀ i, i < 8 → alLookup b.pins i = some (ps i)) :
    (DigitalWrite b 3 1).2.2 = none ∧
    (DigitalWrite b 3 1).2.1 =
      [digitalMessage ||| 0, expectedMaskC3 ps &&& 0x7F,
       (expectedMaskC3 ps >>> 7) &&& 0x7F] := by
  have hu : ∀ i, i < 8 →
      alLookup (alUpdate b.pins 3 (fun p => { p with digitalVal := 1 })) i =
        some (if i = 3 then { ps 3 with digitalVal := 1 } else ps i) := by
    intro i hi
    rw [alLookup_alUpdate]
    by_cases h3' : i = 3
    · simp [h3', h 3 (by norm_num)]
    · simp [h3', h i hi]
  have hdw : dwLoop (alUpdate b.pins 3 (fun p => { p with digitalVal := 1 }))
      0 [0, 1, 2, 3, 4, 5, 6, 7] 0 = Except.ok (expectedMaskC3 ps) := by
    simp only [dwLoop, Nat.mul_zero, Nat.zero_add,
      hu 0 (by norm_num), hu 1 (by norm_num), hu 2 (by norm_num),
      hu 3 (by norm_num), hu 4 (by norm_num), hu 5 (by norm_num),
      hu 6 (by norm_num), hu 7 (by norm_num)]
    unfold expectedMaskC3
    by_cases c0 : (ps 0).digitalVal = 0 <;>
      by_cases c1 : (ps 1).digitalVal = 0 <;>
      by_cases c2 : (ps 2).digitalVal = 0 <;>
      by_cases c4 : (ps 4).digitalVal = 0 <;>
      by_cases c5 : (ps 5).digitalVal = 0 <;>
      by_cases c6 : (ps 6).digitalVal = 0 <;>
      by_cases c7 : (ps 7).digitalVal = 0 <;>
      simp [c0, c1, c2, c4, c5, c6, c7, LOW]
  have hall : DigitalWrite b 3 1 =
      ({ b with pins := alUpdate b.pins 3 (fun p => { p with digitalVal := 1 }) },
       [digitalMessage ||| 0, expectedMaskC3 ps &&& 0x7F,
        (expectedMaskC3 ps >>> 7) &&& 0x7F], none) := by
    simp only [DigitalWrite, show pinToPort 3 = 0 from rfl,
      show List.range 8 = [0, 1, 2, 3, 4, 5, 6, 7] from rfl, hdw]
  simp [hall]

/-- The pin table contents of `bAll8`, as a function. -/
def psAll8 : Nat → pin := fun i => exPin i (if i = 7 then 1 else 0)

/-- C3 witness for the amended theorem on `bAll8`. -/
theorem C3_witness :
    (∀ i, i < 8 → alLookup bAll8.pins i = some (psAll8 i)) ∧
    ((DigitalWrite bAll8 3 1).2.2 = none ∧
     (DigitalWrite bAll8 3 1).2.1 =
       [digitalMessage ||| 0, expectedMaskC3 psAll8 &&& 0x7F,
        (expectedMaskC3 psAll8 >>> 7) &&& 0x7F]) :=
  ⟨by decide, C3_theorem bAll8 psAll8 (by decide)⟩

/-- C4: if any of the eight pins of the target pin's port is missing from
the table, `DigitalWrite` writes no bytes and returns the unknown-pin
error. -/
theorem C4_theorem (b : Board) (pinN s : Nat)
    (h : ∃ i, i < 8 ∧ alLookup b.pins (8 * pinToPort pinN + i) = none) :
    (DigitalWrite b pinN s).2.1 = [] ∧
    ∃ n, (DigitalWrite b pinN s).2.2 = some (BErr.unknownPin n) := by
  obtain ⟨i, hi, hnone⟩ := h
  have hnone' : alLookup (alUpdate b.pins pinN (fun p => { p with digitalVal := s }))
      (8 * pinToPort pinN + i) = none := by
    rw [alLookup_alUpdate]
    by_cases hx : 8 * pinToPort pinN + i = pinN
    · rw [if_pos hx, ← hx, hnone]; rfl
    · rw [if_neg hx]; exact hnone
  obtain ⟨n, hn⟩ := dwLoop_err (List.range 8) 0 ⟨i, List.mem_range.mpr hi, hnone'⟩
  simp only [DigitalWrite, hn]
  constructor
  · trivial
  · exact ⟨n, rfl⟩

/-- C4 witness: board holding only pin 3; sibling pin 0 is missing. -/
theorem C4_witness :
    (DigitalWrite bOnly3 3 1).2.1 = [] ∧
    ∃ n, (DigitalWrite bOnly3 3 1).2.2 = some (BErr.unknownPin n) :=
  C4_theorem bOnly3 3 1 ⟨0, by decide, by decide⟩

/-- C9: when `DigitalWrite` fails because a sibling is missing while the
target pin itself is present, the target pin's stored digital value has
nevertheless been updated to the requested state. -/
theorem C9_theorem (b : Board) (pinN s : Nat) (p : pin)
    (hp : alLookup b.pins pinN = some p)
    (_he : ((DigitalWrite b pinN s).2.2).isSome = true) :
    alLookup ((DigitalWrite b pinN s).1).pins pinN = some { p with digitalVal := s } := by
  have hb1 : ((DigitalWrite b pinN s).1).pins =
      alUpdate b.pins pinN (fun q => { q with digitalVal := s }) := by
    simp only [DigitalWrite]
    split <;> rfl
  rw [hb1, alLookup_alUpdate]
  simp [hp]

/-- C9 witness: pin 3 present, sibling pins missing, so the write fails —
and pin 3's stored value is 1 afterwards. -/
theorem C9_witness :
    alLookup ((DigitalWrite bOnly3 3 1).1).pins 3 = some { exPin 3 0 with digitalVal := 1 } :=
  C9_theorem bOnly3 3 1 (exPin 3 0) (by decide) (by decide)

/-- C5 (code bug, evaluated at the failing input): for pin 2 present in
Input mode, `SetPinReporting pin2 true` succeeds and sets the reporting
flag, but writes NO bytes to the transport — the Go `switch` has an empty
`case INPUT:` with no fallthrough, so `msg` stays nil instead of being the
port-keyed `[0xD0 | port, 1]` toggle that the claim (and the function's own
documentation) promises. -/
theorem C5_theorem :
    (SetPinReporting bInput2 2 true).2.1 = [] ∧
    (SetPinReporting bInput2 2 true).2.2 = none ∧
    (alLookup (SetPinReporting bInput2 2 true).1.pins 2).map pin.reporting = some true ∧
    (SetPinReporting bInput2 2 true).2.1 ≠ [reportDigital ||| pinInput2.port, 1] ∧
    (pinInput2.setReporting false).2.1 = [] := by decide

/-- C7 counterexample: pin 2 is present, in Output mode, with Output
supported — yet `SetPinMode` on its current mode returns the
already-in-mode error, not the no-op success the claim states. -/
theorem C7_counterexample :
    (SetPinMode bPin2 2 OUTPUT).2.2 = some (BErr.alreadyInMode 2 OUTPUT) ∧
    (SetPinMode bPin2 2 OUTPUT).2.2 ≠ none := by decide

/-- C7 amended: setting a present pin to its current (valid, supported)
mode returns the already-in-mode error, sends no bytes, and leaves the
board unchanged — an error result rather than the claim's no-op success,
with the no-op part (state unchanged) intact. -/
theorem C7_theorem (b : Board) (pinN mode : Nat) (p : pin)
    (hp : alLookup b.pins pinN = some p)
    (hv : bytesContains validPinModes [mode] = true)
    (hs : bytesContains p.supportedModes [mode] = true)
    (hm : mode = p.mode) :
    (SetPinMode b pinN mode).1 = b ∧
    (SetPinMode b pinN mode).2.1 = [] ∧
    (SetPinMode b pinN mode).2.2 = some (BErr.alreadyInMode p.num mode) := by
  have hset : p.setMode mode = (p, [], some (BErr.alreadyInMode p.num mode)) := by
    unfold pin.setMode
    rw [hv, hs]
    simp [hm]
  have hmain : SetPinMode b pinN mode =
      (b, [], some (BErr.alreadyInMode p.num mode)) := by
    unfold SetPinMode
    rw [hp]
    simp only [hset]
    rw [alUpdate_const_self hp]
  rw [hmain]
  exact ⟨rfl, rfl, rfl⟩

/-- C7 witness at the concrete board holding pin 2 in Output mode. -/
theorem C7_witness :
    (SetPinMode bPin2 2 OUTPUT).1 = bPin2 ∧
    (SetPinMode bPin2 2 OUTPUT).2.1 = [] ∧
    (SetPinMode bPin2 2 OUTPUT).2.2 = some (BErr.alreadyInMode 2 OUTPUT) :=
  C7_theorem bPin2 2 OUTPUT (exPin 2 0) (by decide) (by decide) (by decide) (by decide)

/-- C8: once `pinsInitialized` holds (the board reached Ready), delivering
any capability response again is a complete no-op on the board, and a
following analog-mapping response leaves the pin table exactly as it was:
no pin entry is rebuilt or mutated. -/
theorem C8_theorem (b : Board) (mCap mMap : message)
    (h : b.pinsInitialized = true) :
    handleCapabilityResponse b mCap = b ∧
    (handleAnalogMappingResponse (handleCapabilityResponse b mCap) mMap).pins = b.pins ∧
    (handleAnalogMappingResponse (handleCapabilityResponse b mCap) mMap).pinsInitialized = true := by
  have h1 : handleCapabilityResponse b mCap = b := by
    unfold handleCapabilityResponse initPins
    simp [h]
  refine ⟨h1, ?_, ?_⟩ <;> rw [h1] <;> simp [handleAnalogMappingResponse, h]

/-- C8 witness: board `bReady2` (pin table built), redelivered the
scenario-B capability/analog-mapping pair. -/
theorem C8_witness :
    handleCapabilityResponse bReady2 capMsgEx = bReady2 ∧
    (handleAnalogMappingResponse (handleCapabilityResponse bReady2 capMsgEx) mapMsgEx).pins
      = bReady2.pins ∧
    (handleAnalogMappingResponse (handleCapabilityResponse bReady2 capMsgEx) mapMsgEx).pinsInitialized
      = true :=
  C8_theorem bReady2 capMsgEx mapMsgEx (by decide)

/-- C10: handling an incoming digital-port message changes nothing but the
stored digital values of pins whose port matches the message's port and
whose mode is Input: all other board fields, the table's keys and order,
and every other field of every pin (and the digital value of every
non-matching pin) are unchanged. -/
theorem C10_theorem (b : Board) (m : message) :
    (handleDigitalMessage b m).maj = b.maj ∧
    (handleDigitalMessage b m).min = b.min ∧
    (handleDigitalMessage b m).firmware = b.firmware ∧
    (handleDigitalMessage b m).pinsInitialized = b.pinsInitialized ∧
    (handleDigitalMessage b m).analogMapping = b.analogMapping ∧
    (handleDigitalMessage b m).analogToNormal = b.analogToNormal ∧
    List.Forall₂ (fun kv kv' =>
      kv'.1 = kv.1 ∧ kv'.2.num = kv.2.num ∧ kv'.2.analogNum = kv.2.analogNum ∧
      kv'.2.port = kv.2.port ∧ kv'.2.mode = kv.2.mode ∧
      kv'.2.reporting = kv.2.reporting ∧ kv'.2.analogVal = kv.2.analogVal ∧
      kv'.2.supportedModes = kv.2.supportedModes ∧
      (kv'.2.digitalVal = kv.2.digitalVal ∨
        (kv.2.port = (m.data.getD 0 0) &&& 0x0F ∧ kv.2.mode = INPUT)))
      b.pins (handleDigitalMessage b m).pins := by
  refine ⟨rfl, rfl, rfl, rfl, rfl, rfl, ?_⟩
  show List.Forall₂ _ b.pins (b.pins.map _)
  induction b.pins with
  | nil => exact List.Forall₂.nil
  | cons hd tl ih =>
      refine List.Forall₂.cons ?_ ih
      dsimp only
      by_cases hc : hd.2.port = (m.data.getD 0 0) &&& 0x0F ∧ hd.2.mode = INPUT
      · rw [if_pos hc]
        exact ⟨rfl, rfl, rfl, rfl, rfl, rfl, rfl, rfl, Or.inr hc⟩
      · rw [if_neg hc]
        exact ⟨rfl, rfl, rfl, rfl, rfl, rfl, rfl, rfl, Or.inl rfl⟩
